import Mathlib

/-!
Verification of the document field-extraction pipeline
(`textract-utils.js`, `LocalFileProcessing.js`, `LocalFileProcessingAdvanced.js`).

JS strings are modelled as Lean `String` (sequences of `Char`); JS objects
used as string-keyed dictionaries are modelled as insertion-ordered
association lists (`jsObjGet` / `jsObjSet`), matching JS enumeration order
for non-integer-like keys.  JS exceptions (`TypeError` on property access
of `undefined`, `throw new Error(...)`) are modelled with `Except String`.
Numeric geometry (bounding-box coordinates) is modelled with exact
rationals `ℚ`.
-/

/-- ASCII whitespace recognised by JS `\s` / `String.prototype.trim`
(restricted to the ASCII range; the inputs of this development are ASCII). -/
def jsWs (c : Char) : Bool :=
  c == ' ' || c == '\t' || c == '\n' || c == '\r' || c == '\x0b' || c == '\x0c'

/-- ASCII-range lower-casing of one character, as JS `toLowerCase` acts on
the ASCII letters (the only letters appearing in this development). -/
def jsCharLower (c : Char) : Char :=
  if 65 ≤ c.toNat ∧ c.toNat ≤ 90 then Char.ofNat (c.toNat + 32) else c

/-- `c` is an ASCII upper-case letter. -/
def isUpperAscii (c : Char) : Bool :=
  decide (65 ≤ c.toNat) && decide (c.toNat ≤ 90)

/-- JS `String.prototype.toLowerCase` (ASCII model). -/
def jsToLower (s : String) : String := ⟨s.data.map jsCharLower⟩

/-- JS `Array.prototype.join(sep)` for an array of strings. -/
def jsJoin (sep : String) : List String → String
  | [] => ""
  | [x] => x
  | x :: y :: rest => x ++ sep ++ jsJoin sep (y :: rest)

/-- Splitting a character list at every character satisfying `p`
(JS `String.prototype.split` with a single-character alternation pattern). -/
def splitCharsAux (p : Char → Bool) : List Char → List (List Char)
  | [] => [[]]
  | c :: rest =>
    if p c then [] :: splitCharsAux p rest
    else
      match splitCharsAux p rest with
      | [] => [[c]]
      | piece :: more => (c :: piece) :: more

/-- JS `text.split('\n')`. -/
def jsSplitNewline (s : String) : List String :=
  (splitCharsAux (fun c => c == '\n') s.data).map (fun l => ⟨l⟩)

/-- The separator class of `line.split(/:|-|=/)`. -/
def isSepChar (c : Char) : Bool := c == ':' || c == '-' || c == '='

/-- JS `line.split(/:|-|=/)`. -/
def jsSplitSeps (s : String) : List String :=
  (splitCharsAux isSepChar s.data).map (fun l => ⟨l⟩)

/-- JS `String.prototype.trim` (ASCII whitespace model). -/
def jsTrim (s : String) : String :=
  ⟨((s.data.dropWhile jsWs).reverse.dropWhile jsWs).reverse⟩

/-- Substring test on character lists: `sub` occurs inside `l`. -/
def strContainsAux (sub : List Char) : List Char → Bool
  | [] => sub.isEmpty
  | c :: rest => sub.isPrefixOf (c :: rest) || strContainsAux sub rest

/-- JS `s.includes(sub)`. -/
def jsIncludes (s sub : String) : Bool := strContainsAux sub.data s.data

/-- Lookup in a JS object used as a dictionary. -/
def jsObjGet {α : Type} (m : List (String × α)) (k : String) : Option α :=
  match m with
  | [] => none
  | (k2, v) :: rest => if k2 = k then some v else jsObjGet rest k

/-- JS property assignment `m[k] = v`: overwrite in place if the key exists
(keeping its enumeration position), else append. -/
def jsObjSet {α : Type} (m : List (String × α)) (k : String) (v : α) :
    List (String × α) :=
  match m with
  | [] => [(k, v)]
  | (k2, w) :: rest => if k2 = k then (k2, v) :: rest else (k2, w) :: jsObjSet rest k v

/-- JS `Math.round(x * 1000) / 1000` on an exact-rational coordinate. -/
def jsRound1000 (x : ℚ) : ℚ := ((x * 1000 + 1/2).floor : ℤ) / 1000

attribute [local semireducible] Rat.mul Rat.add Rat.inv

/-! ## Data model

One `Block` is a node of the OCR output graph.  All attributes a block may
carry in any of the three source files are fields with JS-`undefined`-like
defaults; `relationships` is `none` when the JS property is absent. -/

/-- One entry of a block's `Relationships` array. -/
structure Relationship where
  rtype : String
  ids : List String
deriving DecidableEq

/-- A Textract block (`PAGE`, `LINE`, `WORD`, `KEY_VALUE_SET`,
`SELECTION_ELEMENT`).  `top`/`left` are `Geometry.BoundingBox` coordinates. -/
structure Block where
  id : String := ""
  blockType : String := ""
  text : String := ""
  entityTypes : List String := []
  selectionStatus : String := ""
  relationships : Option (List Relationship) := none
  page : Option Nat := none
  top : ℚ := 0
  left : ℚ := 0
deriving DecidableEq

/-- One company configuration record from the registry table. -/
structure CompanyRecord where
  company : String
  fields : List String := []
  targetTables : Option (List String) := none
deriving DecidableEq

/-- One per-page extraction result produced by the orchestrators.
`extractedFields` maps a field name to its value, `none` meaning JS `null`. -/
structure ExtractionResult where
  company : String
  pageNumber : Nat
  extractedFields : List (String × Option String)
  targetTables : List String
deriving DecidableEq

/-- One `GetDocumentAnalysis` poll response. -/
structure TextractResponse where
  blocks : List Block := []
  jobStatus : String := ""
  nextToken : Option String := none
deriving DecidableEq

/-! ## `textract-utils.js` -/

/-- `extractText` (textract-utils.js 217-221): texts of all LINE blocks,
newline-joined. -/
def extractText (blocks : List Block) : String :=
  jsJoin "\n" ((blocks.filter (fun b => b.blockType == "LINE")).map (fun b => b.text))

/-- Contribution of one resolved child block to its parent's text
(textract-utils.js 283-288): a WORD's text, the `[X]`/`[ ]` token for a
selection element, nothing for any other block type. -/
def childContrib (w : Block) : List String :=
  if w.blockType == "WORD" then [w.text]
  else if w.blockType == "SELECTION_ELEMENT" then
    [if w.selectionStatus == "SELECTED" then "[X]" else "[ ]"]
  else []

/-- Inner loop of `getTextForBlock` over one CHILD relationship's ids
(textract-utils.js 281-289).  An id that resolves to no block makes the JS
code read `.BlockType` of `undefined`: a thrown `TypeError`. -/
def getTextChildren (blockMap : List (String × Block)) :
    List String → Except String (List String)
  | [] => .ok []
  | i :: rest =>
    match jsObjGet blockMap i with
    | none => .error "TypeError"
    | some w => do
      let tl ← getTextChildren blockMap rest
      .ok (childContrib w ++ tl)

/-- Loop of `getTextForBlock` over the relationships array
(textract-utils.js 279-291). -/
def getTextRels (blockMap : List (String × Block)) :
    List Relationship → Except String (List String)
  | [] => .ok []
  | r :: rest =>
    if r.rtype == "CHILD" then do
      let ts ← getTextChildren blockMap r.ids
      let tl ← getTextRels blockMap rest
      .ok (ts ++ tl)
    else getTextRels blockMap rest

/-- `getTextForBlock` (textract-utils.js 275-294).  The block argument is an
`Option` because `extractKeyValuePairs` passes a possibly-`undefined` value
block, and reading `.Relationships` of `undefined` throws. -/
def getTextForBlock (blockOpt : Option Block) (blockMap : List (String × Block)) :
    Except String String :=
  match blockOpt with
  | none => .error "TypeError"
  | some b =>
    match b.relationships with
    | none => .ok ""
    | some rels => do
      let ts ← getTextRels blockMap rels
      .ok (jsJoin " " ts)

/-- The three lookup maps built by the first loop of `extractKeyValuePairs`
(textract-utils.js 234-244, identical in LocalFileProcessing.js 113-123):
blockMap, keyMap (KEY_VALUE_SET with KEY role) and valueMap (the rest). -/
def buildKvMaps (blocks : List Block) :
    List (String × Block) × List (String × Block) × List (String × Block) :=
  blocks.foldl
    (fun maps b =>
      let bm := jsObjSet maps.1 b.id b
      if b.blockType == "KEY_VALUE_SET" then
        if b.entityTypes.contains "KEY" then (bm, jsObjSet maps.2.1 b.id b, maps.2.2)
        else (bm, maps.2.1, jsObjSet maps.2.2 b.id b)
      else (bm, maps.2.1, maps.2.2))
    ([], [], [])

/-- `extractKeyValuePairs` (textract-utils.js 227-268): for each key block,
in enumeration order, derive its text and write one mapping entry per id of
each VALUE relationship; the looked-up value block is passed to
`getTextForBlock` without an existence check. -/
def extractKeyValuePairs (blocks : List Block) :
    Except String (List (String × String)) := do
  let maps := buildKvMaps blocks
  maps.2.1.foldlM
    (fun kv entry => do
      let keyBlock := entry.2
      let keyText ← getTextForBlock (some keyBlock) maps.1
      match keyBlock.relationships with
      | none => pure kv
      | some rels =>
        rels.foldlM
          (fun kv r =>
            if r.rtype == "VALUE" then
              r.ids.foldlM
                (fun kv valueId => do
                  let valueText ← getTextForBlock (jsObjGet maps.2.2 valueId) maps.1
                  pure (jsObjSet kv keyText valueText))
                kv
            else pure kv)
          kv)
    []

/-- Per-line scan of `extractFieldByPattern` (textract-utils.js 305-314):
the first line containing the (lower-cased) field name and at least one
separator yields the trimmed `:`-rejoined remainder. -/
def patternScan (fieldLower : String) : List String → Option String
  | [] => none
  | line :: rest =>
    if jsIncludes line fieldLower then
      let parts := jsSplitSeps line
      if parts.length > 1 then some (jsTrim (jsJoin ":" (parts.drop 1)))
      else patternScan fieldLower rest
    else patternScan fieldLower rest

/-- `extractFieldByPattern` (textract-utils.js 300-317). -/
def extractFieldByPattern (blocks : List Block) (fieldName : String) : Option String :=
  patternScan (jsToLower fieldName) (jsSplitNewline (jsToLower (extractText blocks)))

/-- `findMatchingCompanyInPage` (textract-utils.js 111-123): first registry
record whose lower-cased name occurs in the lower-cased page text. -/
def findMatchingCompanyInPage (pageText : String)
    (companyRecords : List CompanyRecord) : Option CompanyRecord :=
  companyRecords.find? (fun company =>
    jsIncludes (jsToLower pageText) (jsToLower company.company))

/-- `identifyCompanyAndFields` (textract-utils.js 323-344), with the result
of the registry scan passed in as data. -/
def identifyCompanyAndFields (documentText : String) :
    List CompanyRecord → Option String × List String
  | [] => (none, [])
  | record :: rest =>
    if jsIncludes (jsToLower documentText) (jsToLower record.company) then
      (some record.company, record.fields)
    else identifyCompanyAndFields documentText rest

/-- `keyValuePairs[field] || extractFieldByPattern(blocks, field)`
(textract-utils.js 157 and 356): the key-value hit is used unless absent or
the empty string (JS falsiness), in which case the pattern fallback runs. -/
def fieldValue (kv : List (String × String)) (blocks : List Block)
    (field : String) : Option String :=
  match jsObjGet kv field with
  | some s => if s = "" then extractFieldByPattern blocks field else some s
  | none => extractFieldByPattern blocks field

/-- `extractFields` (textract-utils.js 350-361). -/
def extractFields (blocks : List Block) (fieldsToExtract : List String) :
    Except String (List (String × Option String)) := do
  let kv ← extractKeyValuePairs blocks
  pure (fieldsToExtract.foldl
    (fun results f => jsObjSet results f (fieldValue kv blocks f)) [])

/-- `extractTextFromPage` (textract-utils.js 129-140): texts of the LINE
blocks having a CHILD relationship that includes the page id. -/
def extractTextFromPage (blocks : List Block) (pageId : String) : String :=
  let pageBlocks := blocks.filter (fun b =>
    b.blockType == "LINE" &&
      (match b.relationships with
       | some rels => rels.any (fun r => r.rtype == "CHILD" && r.ids.contains pageId)
       | none => false))
  jsJoin "\n" (pageBlocks.map (fun b => b.text))

/-- JS `block.Page === pageId` (textract-utils.js 149): strict equality
between the numeric `Page` attribute and the page block's string id, which
is false for every pair of a number and a string. -/
def pageEqNumStr (_page : Option Nat) (_pageId : String) : Bool := false

/-- `extractFieldsFromPage` (textract-utils.js 146-162). -/
def extractFieldsFromPage (blocks : List Block) (pageId : String)
    (fieldsToExtract : List String) :
    Except String (List (String × Option String)) := do
  let pageBlocks := blocks.filter (fun b =>
    pageEqNumStr b.page pageId ||
      (match b.relationships with
       | some rels => rels.any (fun r => r.ids.contains pageId)
       | none => false))
  let kv ← extractKeyValuePairs pageBlocks
  pure (fieldsToExtract.foldl
    (fun results f => jsObjSet results f (fieldValue kv pageBlocks f)) [])

/-- `processSinglePageDocument` (textract-utils.js 367-395): the Textract
analysis is the `blocks` argument, the registry scan is `companyRecords`,
and `getTargetTablesForCompany` is the `targetTablesFor` collaborator.
`if (!company) throw new Error(...)` fires on a `null` company and on the
falsy empty-string company. -/
def processSinglePageDocument (blocks : List Block)
    (companyRecords : List CompanyRecord)
    (targetTablesFor : String → List String) :
    Except String (List ExtractionResult) :=
  match identifyCompanyAndFields (extractText blocks) companyRecords with
  | (none, _) => .error "Company not recognized in single page document"
  | (some company, fieldsToExtract) =>
    if company = "" then .error "Company not recognized in single page document"
    else do
      let extractionResults ← extractFields blocks fieldsToExtract
      pure [{ company := company, pageNumber := 1,
              extractedFields := extractionResults,
              targetTables := targetTablesFor company }]

/-- The polling loop's finishing condition, textract-utils.js 446:
`!response.NextToken || response.JobStatus !== 'IN_PROGRESS'`. -/
def loopFinished (response : TextractResponse) : Bool :=
  response.nextToken.isNone || !(response.jobStatus == "IN_PROGRESS")

/-- The per-batch page loop of `processMultiPageDocument`
(textract-utils.js 417-443): process every PAGE block of the response,
returning the batch's results and the updated running page counter. -/
def processBatch (companyRecords : List CompanyRecord) (blocks : List Block)
    (currentPage : Nat) : Except String (List ExtractionResult × Nat) :=
  (blocks.filter (fun b => b.blockType == "PAGE")).foldlM
    (fun state pageBlock => do
      let pageText := extractTextFromPage blocks pageBlock.id
      match findMatchingCompanyInPage pageText companyRecords with
      | some matchedCompany => do
        let extractedFields ←
          extractFieldsFromPage blocks pageBlock.id matchedCompany.fields
        pure (state.1 ++ [{ company := matchedCompany.company,
                            pageNumber := state.2,
                            extractedFields := extractedFields,
                            targetTables := matchedCompany.targetTables.getD [] }],
              state.2 + 1)
      | none => pure (state.1, state.2 + 1))
    ([], currentPage)

/-- The `while (!finished)` polling loop of `processMultiPageDocument`
(textract-utils.js 413-453).  The provider is modelled as a function from
the current continuation cursor to the poll response; the loop itself has
no bound, so an explicit fuel argument is added: a result of `none` means
the fuel ran out with the loop still running. -/
def processMultiPageGo (poll : Option String → TextractResponse)
    (companyRecords : List CompanyRecord) :
    Nat → Option String → Nat → List ExtractionResult →
      Option (Except String (List ExtractionResult))
  | 0, _, _, _ => none
  | fuel + 1, nextToken, currentPage, results =>
    let response := poll nextToken
    match processBatch companyRecords response.blocks currentPage with
    | .error e => some (.error e)
    | .ok (newResults, nextPage) =>
      if loopFinished response then some (.ok (results ++ newResults))
      else
        processMultiPageGo poll companyRecords fuel response.nextToken nextPage
          (results ++ newResults)

/-- `processMultiPageDocument` (textract-utils.js 401-457). -/
def processMultiPageDocument (fuel : Nat)
    (poll : Option String → TextractResponse)
    (companyRecords : List CompanyRecord) :
    Option (Except String (List ExtractionResult)) :=
  processMultiPageGo poll companyRecords fuel none 1 []

/-! ## `LocalFileProcessing.js` (namespace `LFP`) -/

namespace LFP

/-- Inner loop of `getText` (LocalFileProcessing.js 150-155): WORD children
append their text plus a space; an unresolved child id is a `TypeError`. -/
def getTextChildren (blockMap : List (String × Block)) (acc : String) :
    List String → Except String String
  | [] => .ok acc
  | i :: rest =>
    match jsObjGet blockMap i with
    | none => .error "TypeError"
    | some child =>
      if child.blockType == "WORD" then
        getTextChildren blockMap (acc ++ child.text ++ " ") rest
      else getTextChildren blockMap acc rest

/-- Loop of `getText` over the relationships array
(LocalFileProcessing.js 148-157). -/
def getTextRels (blockMap : List (String × Block)) (acc : String) :
    List Relationship → Except String String
  | [] => .ok acc
  | r :: rest =>
    if r.rtype == "CHILD" then do
      let acc2 ← getTextChildren blockMap acc r.ids
      getTextRels blockMap acc2 rest
    else getTextRels blockMap acc rest

/-- `getText` (LocalFileProcessing.js 144-161). -/
def getText (block : Block) (blockMap : List (String × Block)) :
    Except String String := do
  let text ←
    match block.relationships with
    | none => pure ""
    | some rels => getTextRels blockMap "" rels
  pure (jsTrim text)

/-- `extractKeyValuePairs` (LocalFileProcessing.js 106-141):
`keyBlock.Relationships.find(r => r.Type === 'VALUE').Ids[0]` throws on a
missing relationships array or a missing VALUE relationship; an empty `Ids`
yields `undefined`, whose `valueMap` lookup fails the existence check, so
the key is skipped; a value id absent from `valueMap` is likewise skipped. -/
def extractKeyValuePairs (blocks : List Block) :
    Except String (List (String × String)) := do
  let maps := buildKvMaps blocks
  maps.2.1.foldlM
    (fun kv entry => do
      let keyBlock := entry.2
      let rels ←
        match keyBlock.relationships with
        | none => Except.error "TypeError"
        | some rels => pure rels
      let valueRel ←
        match rels.find? (fun r => r.rtype == "VALUE") with
        | none => Except.error "TypeError"
        | some r => pure r
      match valueRel.ids.head? with
      | none => pure kv
      | some valueBlockId =>
        match jsObjGet maps.2.2 valueBlockId with
        | none => pure kv
        | some valueBlock => do
          let keyText ← getText keyBlock maps.1
          let valueText ← getText valueBlock maps.1
          if keyText = "" ∨ valueText = "" then pure kv
          else pure (jsObjSet kv (jsTrim keyText) (jsTrim valueText)))
    []

end LFP

/-! ## `LocalFileProcessingAdvanced.js`: the table zone extractor -/

/-- A finished table line item: `descriptions` already joined to one
string (LocalFileProcessingAdvanced.js 284-290). -/
structure LineItem where
  itemNo : String
  quantity : String
  quantityUnit : String
  descriptions : String
  unitPrice : String
  amount : String
deriving DecidableEq

/-- A line item while being accumulated: `descriptions` still a list
(LocalFileProcessingAdvanced.js 245-252). -/
structure LineItemAcc where
  itemNo : String
  quantity : String := ""
  quantityUnit : String := ""
  descriptions : List String := []
  unitPrice : String := ""
  amount : String := ""
deriving DecidableEq

/-- `/^(\d+)\.$/` applied to a line's text: the digit run is captured when
the whole text is one or more digits followed by a period. -/
def itemNoCapture (s : String) : Option String :=
  let ds := s.data.takeWhile Char.isDigit
  let rest := s.data.dropWhile Char.isDigit
  if ds ≠ [] ∧ rest = ['.'] then some ⟨ds⟩ else none

/-- The unit alternatives of the quantity pattern, lower-cased. -/
def unitWords : List String := ["pcs", "pls", "ea", "unit", "unites", "units"]

/-- `/^([\d,]+)\s+(PCS|PLS|EA|UNIT|UNITES|UNITS)$/i`
(LocalFileProcessingAdvanced.js 258): captures the digits-and-commas run
and the unit, the unit lower-cased as it is on store (line 261). -/
def quantityCapture (s : String) : Option (String × String) :=
  let q := s.data.takeWhile (fun c => c.isDigit || c == ',')
  let r1 := s.data.dropWhile (fun c => c.isDigit || c == ',')
  let ws := r1.takeWhile jsWs
  let r2 := r1.dropWhile jsWs
  let unit := jsToLower ⟨r2⟩
  if q ≠ [] ∧ ws ≠ [] ∧ unitWords.contains unit then some (⟨q⟩, unit) else none

/-- `/^[A-Z]{2}\d+/` (LocalFileProcessingAdvanced.js 264). -/
def isProductCode (s : String) : Bool :=
  match s.data with
  | c0 :: c1 :: c2 :: _ => isUpperAscii c0 && isUpperAscii c1 && c2.isDigit
  | _ => false

/-- `/^CODE\s/` (LocalFileProcessingAdvanced.js 268). -/
def isCodeLine (s : String) : Bool :=
  match s.data with
  | 'C' :: 'O' :: 'D' :: 'E' :: c :: _ => jsWs c
  | _ => false

/-- `/^LOT\sNo/i` (LocalFileProcessingAdvanced.js 272). -/
def isLotLine (s : String) : Bool :=
  match s.data with
  | a :: b :: c :: d :: e :: f :: _ =>
    jsCharLower a == 'l' && jsCharLower b == 'o' && jsCharLower c == 't' &&
      jsWs d && jsCharLower e == 'n' && jsCharLower f == 'o'
  | _ => false

/-- The expected header labels with their logical keys
(LocalFileProcessingAdvanced.js 187-193). -/
def tableHeaders : List (String × String) :=
  [("Item No.", "itemNo"), ("Quantity", "quantity"),
   ("Descriptions", "description"), ("Unit Price", "unitPrice"),
   ("Amount", "amount")]

/-- Stable ascending insertion by the `left` coordinate, the ES2019
semantics of `group.sort((a, b) => a....Left - b....Left)`. -/
def insertByLeft (b : Block) : List Block → List Block
  | [] => [b]
  | x :: xs => if decide (x.left ≤ b.left) then x :: insertByLeft b xs else b :: x :: xs

/-- Stable sort of one vertical group, left to right
(LocalFileProcessingAdvanced.js 233). -/
def sortByLeft (group : List Block) : List Block :=
  group.foldl (fun acc b => insertByLeft b acc) []

/-- Appending a line to the vertical group keyed by its rounded top
coordinate (LocalFileProcessingAdvanced.js 217-222); a JS object with
non-integer-like numeric string keys enumerates in first-insertion order. -/
def addToGroups (groups : List (ℚ × List Block)) (y : ℚ) (line : Block) :
    List (ℚ × List Block) :=
  match groups with
  | [] => [(y, [line])]
  | (k, l) :: rest =>
    if k = y then (k, l ++ [line]) :: rest else (k, l) :: addToGroups rest y line

/-- One step of the row-detection state machine on one collected group
(LocalFileProcessingAdvanced.js 228-276); the state is the finished items
plus the accumulating item, if any. -/
def tableRowStep (state : List LineItemAcc × Option LineItemAcc)
    (group : List Block) : List LineItemAcc × Option LineItemAcc :=
  if group.any (fun line => tableHeaders.any (fun h => line.text == h.1)) then state
  else
    let sorted := sortByLeft group
    match sorted.head? with
    | none => state
    | some first =>
      match itemNoCapture first.text with
      | some n => (state.1 ++ state.2.toList, some { itemNo := n })
      | none =>
        match state.2 with
        | none => state
        | some currentItem =>
          let lineText := first.text
          match quantityCapture lineText with
          | some qu =>
            (state.1, some { currentItem with quantity := qu.1, quantityUnit := qu.2 })
          | none =>
            if isProductCode lineText || isCodeLine lineText || isLotLine lineText then
              (state.1,
               some { currentItem with
                        descriptions := currentItem.descriptions ++ [lineText] })
            else (state.1, some currentItem)

/-- `extractTableData` (LocalFileProcessingAdvanced.js 185-293). -/
def extractTableData (blocks : List Block) : List LineItem :=
  let headerBlocks := tableHeaders.filterMap (fun header =>
    blocks.find? (fun b => b.blockType == "LINE" && b.text == header.1))
  match headerBlocks with
  | [] => []
  | h0 :: hrest =>
    let tableTop := (hrest.map (fun h => h.top)).foldl min h0.top
    let tableBottom : ℚ := 9/10
    let tableLines := blocks.filter (fun b =>
      b.blockType == "LINE" && decide (tableTop < b.top) &&
        decide (b.top < tableBottom))
    let lineGroups := tableLines.foldl
      (fun groups line => addToGroups groups (jsRound1000 line.top) line) []
    let scanned := (lineGroups.map (fun g => g.2)).foldl tableRowStep ([], none)
    let items := scanned.1 ++ scanned.2.toList
    items.map (fun item =>
      { itemNo := item.itemNo, quantity := item.quantity,
        quantityUnit := item.quantityUnit,
        descriptions := jsJoin " " item.descriptions,
        unitPrice := item.unitPrice, amount := item.amount })

/-! ## Concrete inputs used by individual claims -/

deriving instance DecidableEq for Except

/-- Registry with the single company `"Acme"`. -/
def c1Records : List CompanyRecord := [{ company := "Acme" }]

/-- A two-batch provider: the first poll answers with one page matching
`"Acme"`, status `SUCCEEDED` and continuation cursor `"t1"`; the poll for
that cursor would answer a second batch whose page also matches `"Acme"`. -/
def c1Poll (tok : Option String) : TextractResponse :=
  match tok with
  | none =>
    { blocks := [{ id := "p1", blockType := "PAGE" },
                 { id := "l1", blockType := "LINE", text := "Acme invoice",
                   relationships := some [{ rtype := "CHILD", ids := ["p1"] }] }],
      jobStatus := "SUCCEEDED", nextToken := some "t1" }
  | some _ =>
    { blocks := [{ id := "p2", blockType := "PAGE" },
                 { id := "l2", blockType := "LINE", text := "Acme invoice two",
                   relationships := some [{ rtype := "CHILD", ids := ["p2"] }] }],
      jobStatus := "SUCCEEDED", nextToken := none }

/-- Two LINE blocks whose newline-joined text is `"Date: 2024-01-05\n"`. -/
def c2Blocks : List Block :=
  [{ id := "l1", blockType := "LINE", text := "Date: 2024-01-05" },
   { id := "l2", blockType := "LINE", text := "" }]

/-- A block with a CHILD relationship to the id `"w9"`, resolved against an
empty block map. -/
def c3Block : Block :=
  { id := "b1", blockType := "LINE",
    relationships := some [{ rtype := "CHILD", ids := ["w9"] }] }

/-- A KEY-role block whose VALUE relationship references the id `"vX"`,
which resolves to no block in the batch. -/
def c4Blocks : List Block :=
  [{ id := "k1", blockType := "KEY_VALUE_SET", entityTypes := ["KEY"],
     relationships := some [{ rtype := "CHILD", ids := ["w1"] },
                            { rtype := "VALUE", ids := ["vX"] }] },
   { id := "w1", blockType := "WORD", text := "Total" }]

/-- A provider that always answers status `IN_PROGRESS` with a continuation
cursor: no poll response ever satisfies the loop's finishing condition. -/
def c5Poll (_tok : Option String) : TextractResponse :=
  { blocks := [], jobStatus := "IN_PROGRESS", nextToken := some "t" }

/-- The table-zone input of the claim: one matched header line at top 0.10
and four row lines `"1."`, `"2,000 PCS"`, `"2."`, `"500 EA"` at increasing
tops inside the table region. -/
def c7Blocks : List Block :=
  [{ id := "h1", blockType := "LINE", text := "Item No.", top := 1/10, left := 1/10 },
   { id := "r1", blockType := "LINE", text := "1.", top := 15/100, left := 1/10 },
   { id := "r2", blockType := "LINE", text := "2,000 PCS", top := 2/10, left := 1/10 },
   { id := "r3", blockType := "LINE", text := "2.", top := 25/100, left := 1/10 },
   { id := "r4", blockType := "LINE", text := "500 EA", top := 3/10, left := 1/10 }]

/-- A document whose text matches no registry company. -/
def c8Blocks : List Block :=
  [{ id := "l1", blockType := "LINE", text := "hello world" }]

/-- Registry used for the single-page no-match witness. -/
def c8Records : List CompanyRecord := [{ company := "Acme" }]

/-- Two KEY-role blocks — `"k1"` enumerated first, `"k2"` second — deriving
the same key text `keyText`, paired with value blocks whose texts are `a`
and `b` respectively. -/
def c9Blocks (keyText a b : String) : List Block :=
  [{ id := "k1", blockType := "KEY_VALUE_SET", entityTypes := ["KEY"],
     relationships := some [{ rtype := "VALUE", ids := ["v1"] },
                            { rtype := "CHILD", ids := ["w1"] }] },
   { id := "k2", blockType := "KEY_VALUE_SET", entityTypes := ["KEY"],
     relationships := some [{ rtype := "VALUE", ids := ["v2"] },
                            { rtype := "CHILD", ids := ["w2"] }] },
   { id := "v1", blockType := "KEY_VALUE_SET", entityTypes := ["VALUE"],
     relationships := some [{ rtype := "CHILD", ids := ["wa"] }] },
   { id := "v2", blockType := "KEY_VALUE_SET", entityTypes := ["VALUE"],
     relationships := some [{ rtype := "CHILD", ids := ["wb"] }] },
   { id := "w1", blockType := "WORD", text := keyText },
   { id := "w2", blockType := "WORD", text := keyText },
   { id := "wa", blockType := "WORD", text := a },
   { id := "wb", blockType := "WORD", text := b }]

/-- One LINE block containing a field label and a dash-separated value. -/
def c10Blocks : List Block :=
  [{ id := "l1", blockType := "LINE", text := "Ref: A-B" }]

/-! ## Theorems -/

/-- The polling loop's finishing condition, as a proposition: no
continuation cursor OR a status other than `IN_PROGRESS`. -/
theorem loopFinished_eq_true_iff (r : TextractResponse) :
    loopFinished r = true ↔ (r.nextToken = none ∨ r.jobStatus ≠ "IN_PROGRESS") := by
  cases h : r.nextToken <;> simp [loopFinished, h]

/-- Claim C1, amended.  After processing the response of a poll, the loop
ends — returning the accumulated results regardless of the remaining fuel —
exactly when the response carries no continuation cursor OR its status is
not `IN_PROGRESS`; only a response that carries a cursor AND reports
`IN_PROGRESS` makes the loop poll the next batch. -/
theorem c1_termination_condition
    (poll : Option String → TextractResponse) (records : List CompanyRecord)
    (fuel : Nat) (tok : Option String) (page : Nat) (res : List ExtractionResult)
    (newResults : List ExtractionResult) (nextPage : Nat)
    (hb : processBatch records (poll tok).blocks page = .ok (newResults, nextPage)) :
    (((poll tok).nextToken = none ∨ (poll tok).jobStatus ≠ "IN_PROGRESS") →
      processMultiPageGo poll records (fuel + 1) tok page res =
        some (.ok (res ++ newResults))) ∧
    (((poll tok).nextToken ≠ none ∧ (poll tok).jobStatus = "IN_PROGRESS") →
      processMultiPageGo poll records (fuel + 1) tok page res =
        processMultiPageGo poll records fuel (poll tok).nextToken nextPage
          (res ++ newResults)) := by
  constructor
  · intro h
    have hf : loopFinished (poll tok) = true := (loopFinished_eq_true_iff _).mpr h
    simp [processMultiPageGo, hb, hf]
  · intro h
    have hf : loopFinished (poll tok) = false := by
      cases hcond : loopFinished (poll tok)
      · rfl
      · rcases (loopFinished_eq_true_iff _).mp hcond with h3 | h3
        · exact absurd h3 h.1
        · exact absurd h.2 h3
    simp [processMultiPageGo, hb, hf]

/-- Claim C1, counterexample.  The first poll's response carries the
continuation cursor `"t1"`, yet — its status being `SUCCEEDED`, not
`IN_PROGRESS` — the loop ends after that response: only the one result of
batch 1 is produced, although the second batch's page also matches the
registry (the claim would require the loop to continue and yield a second
result). -/
theorem c1_counterexample :
    (c1Poll none).nextToken = some "t1" ∧
    (c1Poll none).jobStatus ≠ "IN_PROGRESS" ∧
    processMultiPageDocument 5 c1Poll c1Records =
      some (.ok [{ company := "Acme", pageNumber := 1,
                   extractedFields := [], targetTables := [] }]) :=
  ⟨rfl, by decide, by decide⟩

/-- Witness for C1: the amended theorem applied to the concrete two-batch
provider, ending the loop right after the first (cursor-carrying,
`SUCCEEDED`) response. -/
theorem c1_termination_condition_witness :
    processMultiPageGo c1Poll c1Records 4 none 1 [] =
      some (.ok ([] ++ [{ company := "Acme", pageNumber := 1,
                          extractedFields := [], targetTables := [] }])) :=
  (c1_termination_condition c1Poll c1Records 3 none 1 []
      [{ company := "Acme", pageNumber := 1, extractedFields := [],
         targetTables := [] }] 2 (by decide)).1 (by decide)

/-- Claim C2, counterexample.  On the document whose flattened text is
exactly `"Date: 2024-01-05\n"`, the pattern extractor for field `"Date:"`
does not return `"2024-01-05"`. -/
theorem c2_counterexample :
    extractText c2Blocks = "Date: 2024-01-05\n" ∧
    extractFieldByPattern c2Blocks "Date:" ≠ some "2024-01-05" :=
  ⟨by decide, by decide⟩

/-- Claim C2, amended.  On that document the extractor returns
`"2024:01:05"`: the line is split at every `:`, `-`, `=` and the remainder
pieces are re-joined with `:`, so the value's original dashes become
colons. -/
theorem c2_pattern_value :
    extractText c2Blocks = "Date: 2024-01-05\n" ∧
    extractFieldByPattern c2Blocks "Date:" = some "2024:01:05" :=
  ⟨by decide, by decide⟩

/-- Claim C4.  In `textract-utils.js`, a KEY-role block whose VALUE
relationship references an id absent from the value blocks is **not**
skipped: the extractor passes the `undefined` lookup to `getTextForBlock`
and throws a `TypeError`.  The sibling implementation in
`LocalFileProcessing.js` checks `valueMap[valueBlockId]` first and on the
same input skips the key silently, completing normally. -/
theorem c4_missing_value_throws :
    extractKeyValuePairs c4Blocks = .error "TypeError" ∧
    LFP.extractKeyValuePairs c4Blocks = .ok [] :=
  ⟨by decide, by decide⟩

/-- Helper for C5: against the always-`IN_PROGRESS`, always-cursor
provider, the polling loop is still running whatever fuel it is given. -/
theorem c5Poll_go_none :
    ∀ (fuel : Nat) (tok : Option String) (page : Nat) (res : List ExtractionResult),
      processMultiPageGo c5Poll [] fuel tok page res = none := by
  intro fuel
  induction fuel with
  | zero => intro tok page res; rfl
  | succ n ih =>
    intro tok page res
    show processMultiPageGo c5Poll [] n (some "t") page (res ++ []) = none
    exact ih _ _ _

/-- Claim C5.  The polling loop has no cap on attempts or elapsed time: for
the provider whose every response is `IN_PROGRESS` with a continuation
cursor, no amount of fuel makes `processMultiPageDocument` stop — there is
no fixed bound on the number of polls after which the loop terminates. -/
theorem c5_unbounded_polling :
    ∀ fuel : Nat, processMultiPageDocument fuel c5Poll [] = none :=
  fun fuel => c5Poll_go_none fuel none 1 []

/-- Claim C7.  On the claim's table-zone input — a matched header line at
top 0.10 and the four row groups `"1."`, `"2,000 PCS"`, `"2."`, `"500 EA"`
— the extractor returns exactly two line items: itemNo `"1"` with quantity
`"2,000"` and unit `"pcs"`, and itemNo `"2"` with quantity `"500"` and
unit `"ea"`. -/
theorem c7_table_extractor :
    extractTableData c7Blocks =
      [{ itemNo := "1", quantity := "2,000", quantityUnit := "pcs",
         descriptions := "", unitPrice := "", amount := "" },
       { itemNo := "2", quantity := "500", quantityUnit := "ea",
         descriptions := "", unitPrice := "", amount := "" }] := by decide

/-- Claim C9.  With two KEY-role blocks deriving the same (arbitrary) key
text — `"k1"` enumerated before `"k2"`, their paired value texts `a` and
`b` arbitrary — the extraction completes without error and the resulting
mapping binds that key text to `b`, the value paired with the later key
block: last write wins, and the duplicate key text is not an error. -/
theorem c9_last_write_wins :
    ∀ keyText a b : String,
      ∃ kv, extractKeyValuePairs (c9Blocks keyText a b) = .ok kv ∧
        jsObjGet kv keyText = some b := by
  intro keyText a b
  refine ⟨jsObjSet (jsObjSet [] keyText a) keyText b, rfl, ?_⟩
  simp [jsObjGet, jsObjSet]

/-- `Char.ofNat` on a valid scalar value round-trips through `toNat`. -/
theorem toNat_ofNat_valid (n : Nat) (h : n.isValidChar) : (Char.ofNat n).toNat = n := by
  rw [Char.ofNat, dif_pos h]
  rfl

/-- Lower-casing a character never yields an ASCII upper-case letter. -/
theorem isUpperAscii_jsCharLower (c : Char) : isUpperAscii (jsCharLower c) = false := by
  unfold jsCharLower
  by_cases h : 65 ≤ c.toNat ∧ c.toNat ≤ 90
  · rw [if_pos h]
    have hv : (c.toNat + 32).isValidChar := Or.inl (by omega)
    have ht := toNat_ofNat_valid _ hv
    refine Bool.eq_false_iff.mpr ?_
    intro hx
    simp only [isUpperAscii, Bool.and_eq_true, decide_eq_true_eq, ht] at hx
    omega
  · rw [if_neg h]
    refine Bool.eq_false_iff.mpr ?_
    intro hx
    simp only [isUpperAscii, Bool.and_eq_true, decide_eq_true_eq] at hx
    exact h hx

/-- Every character of a lower-cased string is non-upper-case. -/
theorem mem_jsToLower_not_upper (s : String) (c : Char) (hc : c ∈ (jsToLower s).data) :
    isUpperAscii c = false := by
  rcases List.mem_map.mp hc with ⟨c0, _, rfl⟩
  exact isUpperAscii_jsCharLower c0

/-- The splitter always produces at least one piece. -/
theorem splitCharsAux_ne_nil (p : Char → Bool) (l : List Char) :
    splitCharsAux p l ≠ [] := by
  cases l with
  | nil => simp [splitCharsAux]
  | cons c rest =>
    simp only [splitCharsAux]
    by_cases h : p c = true
    · simp [h]
    · simp only [h]
      cases hr : splitCharsAux p rest <;> simp

/-- Characters of a split piece come from the split list and never satisfy
the separator predicate. -/
theorem mem_splitCharsAux (p : Char → Bool) :
    ∀ (l piece : List Char), piece ∈ splitCharsAux p l →
      ∀ c ∈ piece, c ∈ l ∧ p c = false := by
  intro l
  induction l with
  | nil =>
    intro piece hp c hc
    simp [splitCharsAux] at hp
    subst hp
    simp at hc
  | cons a rest ih =>
    intro piece hp c hc
    simp only [splitCharsAux] at hp
    by_cases ha : p a = true
    · rw [if_pos ha] at hp
      rcases List.mem_cons.mp hp with h1 | h1
      · subst h1; simp at hc
      · have := ih piece h1 c hc
        exact ⟨List.mem_cons_of_mem _ this.1, this.2⟩
    · rw [if_neg ha] at hp
      cases hr : splitCharsAux p rest with
      | nil => exact absurd hr (splitCharsAux_ne_nil p rest)
      | cons piece0 more =>
        rw [hr] at hp
        rcases List.mem_cons.mp hp with h1 | h1
        · subst h1
          rcases List.mem_cons.mp hc with h2 | h2
          · subst h2
            exact ⟨List.mem_cons_self _ _, Bool.eq_false_iff.mpr ha⟩
          · have := ih piece0 (by rw [hr]; exact List.mem_cons_self _ _) c h2
            exact ⟨List.mem_cons_of_mem _ this.1, this.2⟩
        · have := ih piece (by rw [hr]; exact List.mem_cons_of_mem _ h1) c hc
          exact ⟨List.mem_cons_of_mem _ this.1, this.2⟩

/-- Characters of a join come from the separator or from one of the parts. -/
theorem mem_jsJoin (sep : String) :
    ∀ (parts : List String) (c : Char), c ∈ (jsJoin sep parts).data →
      c ∈ sep.data ∨ ∃ part ∈ parts, c ∈ part.data := by
  intro parts
  induction parts with
  | nil => intro c hc; simp [jsJoin] at hc
  | cons x rest ih =>
    cases rest with
    | nil =>
      intro c hc
      exact Or.inr ⟨x, List.mem_cons_self _ _, hc⟩
    | cons y rest2 =>
      intro c hc
      simp only [jsJoin] at hc
      rw [String.data_append, String.data_append] at hc
      rcases List.mem_append.mp hc with h1 | h1
      · rcases List.mem_append.mp h1 with h2 | h2
        · exact Or.inr ⟨x, List.mem_cons_self _ _, h2⟩
        · exact Or.inl h2
      · rcases ih c h1 with h2 | ⟨part, hp, hcp⟩
        · exact Or.inl h2
        · exact Or.inr ⟨part, List.mem_cons_of_mem _ hp, hcp⟩

/-- Trimming keeps a subset of the characters. -/
theorem mem_jsTrim (s : String) (c : Char) (hc : c ∈ (jsTrim s).data) : c ∈ s.data := by
  have h1 : c ∈ (s.data.dropWhile jsWs).reverse.dropWhile jsWs := by
    simpa [jsTrim] using hc
  have h2 : c ∈ (s.data.dropWhile jsWs).reverse :=
    (List.dropWhile_sublist jsWs).subset h1
  have h3 : c ∈ s.data.dropWhile jsWs := List.mem_reverse.mp h2
  exact (List.dropWhile_sublist jsWs).subset h3

/-- The substring scan succeeds exactly when the pattern occurs inside the
list. -/
theorem strContainsAux_iff (sub : List Char) :
    ∀ l : List Char, strContainsAux sub l = true ↔ ∃ s t, l = s ++ (sub ++ t) := by
  intro l
  induction l with
  | nil =>
    simp only [strContainsAux, List.isEmpty_iff]
    constructor
    · rintro rfl; exact ⟨[], [], rfl⟩
    · rintro ⟨s, t, h⟩
      rcases List.append_eq_nil.mp h.symm with ⟨rfl, h2⟩
      exact (List.append_eq_nil.mp h2).1
  | cons a rest ih =>
    simp only [strContainsAux, Bool.or_eq_true, List.isPrefixOf_iff_prefix, ih]
    constructor
    · rintro (⟨t, ht⟩ | ⟨s, t, ht⟩)
      · exact ⟨[], t, ht.symm⟩
      · exact ⟨a :: s, t, by rw [ht, List.cons_append]⟩
    · rintro ⟨s, t, ht⟩
      cases s with
      | nil =>
        exact Or.inl ⟨t, by simpa using ht.symm⟩
      | cons b s2 =>
        rw [List.cons_append] at ht
        injection ht with h1 h2
        exact Or.inr ⟨s2, t, h2⟩

/-- `jsIncludes` characterised by character-list decomposition. -/
theorem jsIncludes_iff (s sub : String) :
    jsIncludes s sub = true ↔ ∃ p q, s.data = p ++ (sub.data ++ q) :=
  strContainsAux_iff sub.data s.data

/-- Looking up the key just written yields the written value. -/
theorem jsObjGet_set_self {α : Type} (k : String) (v : α) :
    ∀ m : List (String × α), jsObjGet (jsObjSet m k v) k = some v := by
  intro m
  induction m with
  | nil => simp [jsObjGet, jsObjSet]
  | cons p rest ih =>
    obtain ⟨k2, w⟩ := p
    by_cases h : k2 = k <;> simp [jsObjGet, jsObjSet, h, ih]

/-- Writing one key leaves lookups of other keys unchanged. -/
theorem jsObjGet_set_other {α : Type} (k k2 : String) (v : α) (h : k2 ≠ k) :
    ∀ m : List (String × α), jsObjGet (jsObjSet m k v) k2 = jsObjGet m k2 := by
  intro m
  induction m with
  | nil => simp [jsObjGet, jsObjSet, Ne.symm h]
  | cons p rest ih =>
    obtain ⟨k3, w⟩ := p
    simp only [jsObjSet]
    by_cases h3 : k3 = k
    · rw [if_pos h3]
      have hne : ¬k3 = k2 := by rw [h3]; exact Ne.symm h
      simp [jsObjGet, hne]
    · rw [if_neg h3]
      by_cases h4 : k3 = k2
      · simp [jsObjGet, h4]
      · simp [jsObjGet, h4, ih]

/-- A key not written by the fold keeps its previous binding. -/
theorem jsObjGet_foldl_set_of_not_mem {α : Type} (g : String → α) (f : String) :
    ∀ (flds : List String) (m : List (String × α)), f ∉ flds →
      jsObjGet (flds.foldl (fun m2 x => jsObjSet m2 x (g x)) m) f = jsObjGet m f := by
  intro flds
  induction flds with
  | nil => intro m _; rfl
  | cons x rest ih =>
    intro m hf
    have hx : f ≠ x := fun h => hf (h ▸ List.mem_cons_self _ _)
    have hr : f ∉ rest := fun h => hf (List.mem_cons_of_mem _ h)
    calc jsObjGet ((x :: rest).foldl (fun m2 y => jsObjSet m2 y (g y)) m) f
        = jsObjGet (rest.foldl (fun m2 y => jsObjSet m2 y (g y)) (jsObjSet m x (g x))) f :=
          rfl
      _ = jsObjGet (jsObjSet m x (g x)) f := ih _ hr
      _ = jsObjGet m f := jsObjGet_set_other x f (g x) hx _

/-- A key written by the fold is bound to its computed value. -/
theorem jsObjGet_foldl_set_of_mem {α : Type} (g : String → α) (f : String) :
    ∀ (flds : List String) (m : List (String × α)), f ∈ flds →
      jsObjGet (flds.foldl (fun m2 x => jsObjSet m2 x (g x)) m) f = some (g f) := by
  intro flds
  induction flds with
  | nil => intro m h; simp at h
  | cons x rest ih =>
    intro m hf
    by_cases hr : f ∈ rest
    · exact ih _ hr
    · have hx : f = x := by
        rcases List.mem_cons.mp hf with h | h
        · exact h
        · exact absurd h hr
      subst hx
      calc jsObjGet ((f :: rest).foldl (fun m2 y => jsObjSet m2 y (g y)) m) f
          = jsObjGet (rest.foldl (fun m2 y => jsObjSet m2 y (g y)) (jsObjSet m f (g f))) f :=
            rfl
        _ = jsObjGet (jsObjSet m f (g f)) f := jsObjGet_foldl_set_of_not_mem g f rest _ hr
        _ = some (g f) := jsObjGet_set_self f (g f) _

/-- A registry in which no record's name occurs in the text identifies no
company. -/
theorem identifyCompanyAndFields_none (documentText : String) :
    ∀ records : List CompanyRecord,
      (∀ r ∈ records, jsIncludes (jsToLower documentText) (jsToLower r.company) = false) →
      identifyCompanyAndFields documentText records = (none, []) := by
  intro records
  induction records with
  | nil => intro _; rfl
  | cons r rest ih =>
    intro h
    simp only [identifyCompanyAndFields, h r (List.mem_cons_self _ _)]
    simp only [Bool.false_eq_true, if_false]
    exact ih (fun d hd => h d (List.mem_cons_of_mem _ hd))

/-- Bind on a successful `Except` computation. -/
theorem except_bind_ok {ε α β : Type} (a : α) (f : α → Except ε β) :
    (Except.ok a : Except ε α) >>= f = f a := rfl

/-- Bind on a failed `Except` computation. -/
theorem except_bind_error {ε α β : Type} (e : ε) (f : α → Except ε β) :
    (Except.error e : Except ε α) >>= f = Except.error e := rfl

/-- The child loop throws exactly when one of the ids is unresolved. -/
theorem getTextChildren_error_iff (bm : List (String × Block)) :
    ∀ ids : List String,
      (∃ e, getTextChildren bm ids = .error e) ↔ ∃ i ∈ ids, jsObjGet bm i = none := by
  intro ids
  induction ids with
  | nil => simp [getTextChildren]
  | cons i rest ih =>
    simp only [getTextChildren]
    cases hl : jsObjGet bm i with
    | none => simp [hl]
    | some w =>
      cases hrec : getTextChildren bm rest with
      | error e =>
        simp only [except_bind_error]
        constructor
        · intro _
          obtain ⟨i2, hi2, hn⟩ := ih.mp ⟨e, hrec⟩
          exact ⟨i2, List.mem_cons_of_mem _ hi2, hn⟩
        · intro _
          exact ⟨e, rfl⟩
      | ok tl =>
        simp only [except_bind_ok]
        constructor
        · rintro ⟨e, he⟩
          exact absurd he (by simp)
        · rintro ⟨i2, hi2, hn⟩
          rcases List.mem_cons.mp hi2 with h | h
          · subst h
            simp [hl] at hn
          · obtain ⟨e, he⟩ := ih.mpr ⟨i2, h, hn⟩
            rw [hrec] at he
            exact absurd he (by simp)

/-- The relationship loop throws exactly when some CHILD relationship holds
an unresolved id. -/
theorem getTextRels_error_iff (bm : List (String × Block)) :
    ∀ rels : List Relationship,
      (∃ e, getTextRels bm rels = .error e) ↔
        ∃ r ∈ rels, r.rtype = "CHILD" ∧ ∃ i ∈ r.ids, jsObjGet bm i = none := by
  intro rels
  induction rels with
  | nil => simp [getTextRels]
  | cons r rest ih =>
    simp only [getTextRels]
    by_cases hc : r.rtype == "CHILD"
    · rw [if_pos hc]
      have hceq : r.rtype = "CHILD" := by simpa using hc
      cases hch : getTextChildren bm r.ids with
      | error e =>
        simp only [except_bind_error]
        constructor
        · intro _
          obtain ⟨i, hi, hn⟩ := (getTextChildren_error_iff bm r.ids).mp ⟨e, hch⟩
          exact ⟨r, List.mem_cons_self _ _, hceq, i, hi, hn⟩
        · intro _
          exact ⟨e, rfl⟩
      | ok ts =>
        simp only [except_bind_ok]
        cases hrr : getTextRels bm rest with
        | error e =>
          simp only [except_bind_error]
          constructor
          · intro _
            obtain ⟨r2, hr2, h3, h4⟩ := ih.mp ⟨e, hrr⟩
            exact ⟨r2, List.mem_cons_of_mem _ hr2, h3, h4⟩
          · intro _
            exact ⟨e, rfl⟩
        | ok tl =>
          simp only [except_bind_ok]
          constructor
          · rintro ⟨e, he⟩
            exact absurd he (by simp)
          · rintro ⟨r2, hr2, h3, i, hi, hn⟩
            rcases List.mem_cons.mp hr2 with h | h
            · subst h
              obtain ⟨e, he⟩ := (getTextChildren_error_iff bm r2.ids).mpr ⟨i, hi, hn⟩
              rw [hch] at he
              exact absurd he (by simp)
            · obtain ⟨e, he⟩ := ih.mpr ⟨r2, h, h3, i, hi, hn⟩
              rw [hrr] at he
              exact absurd he (by simp)
    · rw [if_neg hc]
      have hne : ¬r.rtype = "CHILD" := by simpa using hc
      constructor
      · intro h
        obtain ⟨r2, hr2, h3, h4⟩ := ih.mp h
        exact ⟨r2, List.mem_cons_of_mem _ hr2, h3, h4⟩
      · rintro ⟨r2, hr2, h3, h4⟩
        rcases List.mem_cons.mp hr2 with h | h
        · subst h
          exact absurd h3 hne
        · exact ih.mpr ⟨r2, h, h3, h4⟩

/-- Claim C3, counterexample.  For a block whose CHILD relationship
references the id `"w9"`, which resolves to no block in the batch, deriving
the block's text does not return normally: the traversal throws a
`TypeError` from the `blockMap[childId].BlockType` access on `undefined`. -/
theorem c3_counterexample :
    getTextForBlock (some c3Block) [] = Except.error "TypeError" := by decide

/-- Claim C3, amended.  Deriving a block's text fails — throwing the
`TypeError` of a property access on `undefined` — exactly when some CHILD
relationship of the block references an id that resolves to no block in
the batch; in particular ids that resolve to blocks of other types
contribute nothing without error, but an unresolved id is never treated as
"not found". -/
theorem c3_unresolved_child_throws :
    ∀ (b : Block) (blockMap : List (String × Block)),
      (∃ e, getTextForBlock (some b) blockMap = .error e) ↔
        ∃ rels, b.relationships = some rels ∧
          ∃ r ∈ rels, r.rtype = "CHILD" ∧ ∃ i ∈ r.ids, jsObjGet blockMap i = none := by
  intro b bm
  cases hrel : b.relationships with
  | none => simp [getTextForBlock, hrel]
  | some rels =>
    simp only [getTextForBlock, hrel]
    constructor
    · rintro ⟨e, he⟩
      cases hr : getTextRels bm rels with
      | error e2 =>
        obtain ⟨r, h1, h2, h3⟩ := (getTextRels_error_iff bm rels).mp ⟨e2, hr⟩
        exact ⟨rels, rfl, r, h1, h2, h3⟩
      | ok ts =>
        rw [hr, except_bind_ok] at he
        exact absurd he (by simp)
    · rintro ⟨rels2, hrels2, r, h1, h2, h3⟩
      have heq : rels2 = rels := by
        have := hrels2.symm
        simpa using this
      subst heq
      obtain ⟨e, he⟩ := (getTextRels_error_iff bm rels2).mpr ⟨r, h1, h2, h3⟩
      refine ⟨e, ?_⟩
      rw [he, except_bind_error]

/-- Per-line scan: a successful pattern extraction comes from some line
that contains the field name and at least one separator, and the value is
the trimmed `:`-join of the pieces after the first. -/
theorem patternScan_some (fieldLower : String) :
    ∀ (lines : List String) (v : String), patternScan fieldLower lines = some v →
      ∃ line ∈ lines, jsIncludes line fieldLower = true ∧
        (jsSplitSeps line).length > 1 ∧
        v = jsTrim (jsJoin ":" ((jsSplitSeps line).drop 1)) := by
  intro lines
  induction lines with
  | nil => intro v h; simp [patternScan] at h
  | cons line rest ih =>
    intro v h
    by_cases h1 : jsIncludes line fieldLower = true
    · by_cases h2 : (jsSplitSeps line).length > 1
      · have hv : some (jsTrim (jsJoin ":" ((jsSplitSeps line).drop 1))) = some v := by
          simpa [patternScan, h1, h2] using h
        exact ⟨line, List.mem_cons_self _ _, h1, h2,
          (Option.some.injEq _ _ ▸ hv).symm⟩
      · have h3 : patternScan fieldLower rest = some v := by
          simpa [patternScan, h1, h2] using h
        obtain ⟨l2, hl2, hrest⟩ := ih v h3
        exact ⟨l2, List.mem_cons_of_mem _ hl2, hrest⟩
    · have h3 : patternScan fieldLower rest = some v := by
        simpa [patternScan, h1] using h
      obtain ⟨l2, hl2, hrest⟩ := ih v h3
      exact ⟨l2, List.mem_cons_of_mem _ hl2, hrest⟩

/-- Claim C10.  Whenever the pattern extractor returns a value, that value
contains no ASCII upper-case letter (the whole document text is
lower-cased before the line scan) and contains no `-` or `=` at all: the
matched line was split at every separator and the remainder pieces were
re-joined with `:`, so every `-` or `=` after the first separator shows up
as `:` in the returned value — witness the final conjunct giving the
value's exact shape. -/
theorem c10_pattern_value_shape :
    ∀ (blocks : List Block) (fieldName v : String),
      extractFieldByPattern blocks fieldName = some v →
      (∀ c ∈ v.data, isUpperAscii c = false) ∧ '-' ∉ v.data ∧ '=' ∉ v.data ∧
      ∃ line ∈ jsSplitNewline (jsToLower (extractText blocks)),
        jsIncludes line (jsToLower fieldName) = true ∧
        (jsSplitSeps line).length > 1 ∧
        v = jsTrim (jsJoin ":" ((jsSplitSeps line).drop 1)) := by
  intro blocks fieldName v h
  obtain ⟨line, hline, hinc, hlen, hv⟩ :=
    patternScan_some (jsToLower fieldName) _ v h
  obtain ⟨piece, hpiece, hlp⟩ := List.mem_map.mp hline
  have hlinedata : line.data = piece := by rw [← hlp]
  have hpchars : ∀ c ∈ piece, c ∈ (jsToLower (extractText blocks)).data ∧
      (fun c2 => c2 == '\n') c = false :=
    mem_splitCharsAux _ _ piece hpiece
  have hvchar : ∀ c ∈ v.data, c = ':' ∨ (c ∈ line.data ∧ isSepChar c = false) := by
    intro c hc
    rw [hv] at hc
    have hc2 := mem_jsTrim _ _ hc
    rcases mem_jsJoin ":" _ c hc2 with hsep | ⟨part, hpart, hcp⟩
    · left
      simpa using hsep
    · right
      have hpart2 : part ∈ jsSplitSeps line := List.drop_subset _ _ hpart
      obtain ⟨piece2, hpiece2, hlp2⟩ := List.mem_map.mp hpart2
      have hcp2 : c ∈ piece2 := by rw [← hlp2] at hcp; exact hcp
      exact mem_splitCharsAux _ _ piece2 hpiece2 c hcp2
  refine ⟨?_, ?_, ?_, line, hline, hinc, hlen, hv⟩
  · intro c hc
    rcases hvchar c hc with rfl | ⟨hcl, _⟩
    · decide
    · rw [hlinedata] at hcl
      exact mem_jsToLower_not_upper _ c (hpchars c hcl).1
  · intro hc
    rcases hvchar _ hc with h5 | ⟨_, h6⟩
    · exact absurd h5 (by decide)
    · exact absurd h6 (by decide)
  · intro hc
    rcases hvchar _ hc with h5 | ⟨_, h6⟩
    · exact absurd h5 (by decide)
    · exact absurd h6 (by decide)

/-- Witness for C10: the theorem applied to the document `"Ref: A-B"` and
field `"Ref:"`, whose extracted value is `"a:b"`. -/
theorem c10_pattern_value_shape_witness :
    (∀ c ∈ ("a:b" : String).data, isUpperAscii c = false) ∧
    '-' ∉ ("a:b" : String).data ∧ '=' ∉ ("a:b" : String).data ∧
    ∃ line ∈ jsSplitNewline (jsToLower (extractText c10Blocks)),
      jsIncludes line (jsToLower "Ref:") = true ∧
      (jsSplitSeps line).length > 1 ∧
      "a:b" = jsTrim (jsJoin ":" ((jsSplitSeps line).drop 1)) :=
  c10_pattern_value_shape c10Blocks "Ref:" "a:b" (by decide)

/-- Claim C6.  The company identifier returns the first registry entry, in
registry order, whose lower-cased name occurs in the lower-cased page
text: (1) any entry preceded only by non-matching entries is returned;
(2) with no matching entry the non-error sentinel `none` is returned;
(3) on the registry `[Acme, Acme Corp]` and any text containing
`"acme corp invoice"`, the match is `Acme`, not `Acme Corp`. -/
theorem c6_company_identifier :
    (∀ (pageText : String) (pre post : List CompanyRecord) (c : CompanyRecord),
      (∀ d ∈ pre, jsIncludes (jsToLower pageText) (jsToLower d.company) = false) →
      jsIncludes (jsToLower pageText) (jsToLower c.company) = true →
      findMatchingCompanyInPage pageText (pre ++ c :: post) = some c) ∧
    (∀ (pageText : String) (records : List CompanyRecord),
      (∀ d ∈ records, jsIncludes (jsToLower pageText) (jsToLower d.company) = false) →
      findMatchingCompanyInPage pageText records = none) ∧
    (∀ pageText : String,
      jsIncludes (jsToLower pageText) "acme corp invoice" = true →
      findMatchingCompanyInPage pageText
        [{ company := "Acme" }, { company := "Acme Corp" }] =
        some { company := "Acme" }) := by
  refine ⟨?_, ?_, ?_⟩
  · intro pageText pre
    induction pre with
    | nil =>
      intro post c _ hc
      simp only [findMatchingCompanyInPage, List.nil_append]
      rw [List.find?_cons_of_pos _ (by exact hc)]
    | cons d pre2 ih =>
      intro post c hpre hc
      have hd : jsIncludes (jsToLower pageText) (jsToLower d.company) = false :=
        hpre d (List.mem_cons_self _ _)
      simp only [findMatchingCompanyInPage, List.cons_append]
      rw [List.find?_cons_of_neg _ (by simp [hd])]
      exact ih post c (fun d2 h2 => hpre d2 (List.mem_cons_of_mem _ h2)) hc
  · intro pageText records
    induction records with
    | nil => intro _; rfl
    | cons d rest ih =>
      intro h
      have hd : jsIncludes (jsToLower pageText) (jsToLower d.company) = false :=
        h d (List.mem_cons_self _ _)
      simp only [findMatchingCompanyInPage]
      rw [List.find?_cons_of_neg _ (by simp [hd])]
      exact ih (fun d2 h2 => h d2 (List.mem_cons_of_mem _ h2))
  · intro pageText h
    have hsub : jsIncludes (jsToLower pageText) (jsToLower "Acme") = true := by
      obtain ⟨p, q, hpq⟩ := (jsIncludes_iff _ _).mp h
      refine (jsIncludes_iff _ _).mpr ⟨p, (" corp invoice" : String).data ++ q, ?_⟩
      rw [hpq]
      have hsplit : ("acme corp invoice" : String).data =
          (jsToLower "Acme").data ++ (" corp invoice" : String).data := by decide
      rw [hsplit, List.append_assoc]
    simp only [findMatchingCompanyInPage]
    rw [List.find?_cons_of_pos _ (by exact hsub)]

/-- Witness for C6: the order-dependent tie-break on the concrete text
`"ACME CORP INVOICE 77"`. -/
theorem c6_company_identifier_witness :
    findMatchingCompanyInPage "ACME CORP INVOICE 77"
      [{ company := "Acme" }, { company := "Acme Corp" }] =
      some { company := "Acme" } :=
  c6_company_identifier.2.2 "ACME CORP INVOICE 77" (by decide)

/-- Claim C8.  (1) When no registry company name occurs (case-insensitively)
in the flattened document text, the single-page orchestrator fails with the
document-level error `"Company not recognized in single page document"` —
an `Except.error`, hence zero `ExtractionResult`s.  (2) By contrast a
per-field miss is non-fatal: when the key-value extraction succeeds and a
requested field is found by neither strategy, extraction still succeeds
and the result binds the field to `null` (`none`). -/
theorem c8_no_company_fatal :
    (∀ (blocks : List Block) (companyRecords : List CompanyRecord)
        (targetTablesFor : String → List String),
      (∀ r ∈ companyRecords,
        jsIncludes (jsToLower (extractText blocks)) (jsToLower r.company) = false) →
      processSinglePageDocument blocks companyRecords targetTablesFor =
        .error "Company not recognized in single page document") ∧
    (∀ (blocks : List Block) (fieldsToExtract : List String) (f : String)
        (kv : List (String × String)),
      extractKeyValuePairs blocks = .ok kv →
      f ∈ fieldsToExtract →
      fieldValue kv blocks f = none →
      ∃ m, extractFields blocks fieldsToExtract = .ok m ∧ jsObjGet m f = some none) := by
  constructor
  · intro blocks records tt h
    have hid := identifyCompanyAndFields_none (extractText blocks) records h
    simp [processSinglePageDocument, hid]
  · intro blocks flds f kv hkv hf hnone
    refine ⟨flds.foldl (fun m2 x => jsObjSet m2 x (fieldValue kv blocks x)) [], ?_, ?_⟩
    · simp [extractFields, hkv, except_bind_ok, pure, Except.pure]
    · rw [jsObjGet_foldl_set_of_mem (fieldValue kv blocks) f flds [] hf, hnone]

/-- Witness for C8: a document reading `"hello world"` against the registry
`[Acme]` fails with the fatal document-level error. -/
theorem c8_no_company_fatal_witness :
    processSinglePageDocument c8Blocks c8Records (fun _ => []) =
      .error "Company not recognized in single page document" :=
  c8_no_company_fatal.1 c8Blocks c8Records (fun _ => []) (by decide)
